import Mathlib

/-!
Verification of the macro-risk operating engine (`macro_risk_os_v2.py`,
`composite_equilibrium.py`, `feature_selection.py`) against its
natural-language specification.

The embedding is shallow: monthly series become association lists
`List (Nat × ℚ)` ordered by month key, pointwise market arithmetic is done
over `ℚ` (the Python floats carry no overflow semantics that matter to the
claims), and the one place the source takes a square root
(`np.std` inside score demeaning) is embedded over `ℝ` with `Real.sqrt`.
Every definition mirrors a specific function of the source; the line
references are given in the doc comments.
-/

namespace MacroRiskOS

/-- `np.clip(x, lo, hi)` / `pandas.Series.clip(lo, hi)`: values below `lo`
are raised to `lo`, values above `hi` lowered to `hi`. -/
def clipNp (x lo hi : ℚ) : ℚ := min (max x lo) hi

/-- The six instruments of the book (`macro_risk_os_v2.py`, FEATURE_MAP and
`DataLayer.compute_instrument_returns`). -/
inductive Inst
| fx
| front
| belly
| long
| hard
| ntnb
deriving DecidableEq, Repr

/-- A row of regime probabilities with the five columns
`P_carry, P_riskoff, P_stress, P_domestic_calm, P_domestic_stress`
(`RegimeModel`, `macro_risk_os_v2.py`). -/
structure RegimeProbs where
  pCarry : ℚ
  pRiskoff : ℚ
  pStress : ℚ
  pDomCalm : ℚ
  pDomStress : ℚ
deriving DecidableEq, Repr

/-- The defaults returned by `RegimeModel.get_probs_at` when no fitted
probabilities are available (`macro_risk_os_v2.py` lines 2674-2677):
`{'P_carry': 0.33, 'P_riskoff': 0.33, 'P_stress': 0.33,
  'P_domestic_calm': 0.5, 'P_domestic_stress': 0.5}`. -/
def defaultProbs : RegimeProbs :=
  { pCarry := 33/100, pRiskoff := 33/100, pStress := 33/100,
    pDomCalm := 1/2, pDomStress := 1/2 }

/-- `df.loc[:t]` on a month-keyed frame: keep the rows with key `≤ t`
(the defensive slice used at every call site of the source). -/
def locLe (t : Nat) (df : List (Nat × α)) : List (Nat × α) :=
  df.filter (fun r => r.1 ≤ t)

/-- `RegimeModel.get_probs_at(date)` (`macro_risk_os_v2.py` lines 2672-2688):
slice the fitted probability table to `loc[:date]`; if nothing is available
return the uniform-prior defaults, else the last available row. -/
def getProbsAt (table : List (Nat × RegimeProbs)) (date : Nat) : RegimeProbs :=
  (((locLe date table).getLast?).map Prod.snd).getD defaultProbs

/-- Sum of the global regime trio of a row. -/
def globalTrioSum (p : RegimeProbs) : ℚ := p.pCarry + p.pRiskoff + p.pStress

/-- Sum of the domestic regime pair of a row. -/
def domPairSum (p : RegimeProbs) : ℚ := p.pDomCalm + p.pDomStress

/-! ## Composite equilibrium models (`composite_equilibrium.py`) -/

/-- Model 1, Fiscal-Augmented r\* at one date
(`composite_equilibrium.py` lines 184-186): `r* = R_BASE + fiscal + sovereign`
with `R_BASE = 4.0`, clipped by `np.clip(r_star_t, 2.0, 10.0)`. -/
def fiscalAugmentedRStar (fiscalComponent sovereignComponent : ℚ) : ℚ :=
  clipNp (4 + fiscalComponent + sovereignComponent) 2 10

/-- Country-risk premium of Model 2 (`composite_equilibrium.py` lines
257-263): `max(CDS/100, (EMBI/100 · 0.5) · 0.7)` on the aligned values. -/
def countryRisk (cds embi : ℚ) : ℚ :=
  max (cds / 100) (embi / 100 * (1/2) * (7/10))

/-- VIX adjustment of Model 2 (`composite_equilibrium.py` lines 270-273):
`((vix − median)/median · 0.5)` clipped to `[−1, 2]`. -/
def vixAdjust (vix vixMedian : ℚ) : ℚ :=
  clipNp ((vix - vixMedian) / vixMedian * (1/2)) (-1) 2

/-- Structural fiscal premium of Model 2 (`composite_equilibrium.py`
line 281): `((debt − 60) · 0.03)` clipped to `[0, 3]`. -/
def structuralPremium (debt : ℚ) : ℚ :=
  clipNp ((debt - 60) * (3/100)) 0 3

/-- Terms-of-trade adjustment of Model 2 (`composite_equilibrium.py`
line 290): `(−tot_z · 0.3)` clipped to `[−1, 1]`. -/
def totAdjust (totZ : ℚ) : ℚ :=
  clipNp (-totZ * (3/10)) (-1) 1

/-- Model 2, Real-Rate-Parity r\* at one date (`composite_equilibrium.py`
lines 292-296): the sum of the US real rate, the country risk and the three
adjustments, clipped by `rstar.clip(2.0, 12.0)`. -/
def realRateParityRStar (usReal cds embi vix vixMedian debt totZ : ℚ) : ℚ :=
  clipNp (usReal + countryRisk cds embi + vixAdjust vix vixMedian +
    structuralPremium debt + totAdjust totZ) 2 12

/-- Model 3, Market-Implied (ACM-style) nominal r\* at one date
(`composite_equilibrium.py` line 421): the tenor-weighted long-run yield is
clipped by `np.clip(rstar_nominal, 6.0, 18.0)`. -/
def marketImpliedNominal (raw : ℚ) : ℚ := clipNp raw 6 18

/-- Model 3's EMITTED estimate (`composite_equilibrium.py` lines 443-449):
when inflation expectations are available the real rate
`rstar − ipca_exp` is returned, otherwise the nominal; neither is clipped
to `[2, 10]` — only the nominal was clipped to `[6, 18]`. -/
def marketImpliedRStarReal (raw : ℚ) (ipcaExp : Option ℚ) : ℚ :=
  match ipcaExp with
  | some pie => marketImpliedNominal raw - pie
  | none => marketImpliedNominal raw

/-- Model 4, State-Space (Kalman): the emitted series
(`composite_equilibrium.py` lines 579-618).  Per date, a NaN observation
emits the carried state `x[0]` unchanged (lines 585-587); otherwise the
Kalman update produces a new `x[0]` — entering here as the per-step
parameter, since the matrix algebra itself is irrelevant to the range
claim — which is clipped by `np.clip(x[0], 2.0, 10.0)` (line 610) before
being stored and carried (line 614).  The initial state is
`x = [4.5, 0, 0]` (line 538). -/
def kalmanStates : List (Option ℚ) → ℚ → List ℚ
| [], _ => []
| none :: rest, x0 => x0 :: kalmanStates rest x0
| some w :: rest, _ => clipNp w 2 10 :: kalmanStates rest (clipNp w 2 10)

/-- Model 5, Regime-Switching r\* at one date (`composite_equilibrium.py`
lines 684-702): the regime probabilities are normalised by their total
when it is positive — else only `p_carry` is reset to 1 (line 696) — and
the estimate is `p_carry·4.5 + p_riskoff·5.5 + p_stress·7.0` over the
regime means of `REGIME_RSTAR`; rows of the later adaptive pass are
additionally re-clipped to `[2, 10]` (line 747). -/
def regimeSwitchingRStarAt (pc pr ps : ℚ) : ℚ :=
  if 0 < pc + pr + ps then
    pc / (pc + pr + ps) * (9/2) + pr / (pc + pr + ps) * (11/2)
      + ps / (pc + pr + ps) * 7
  else 1 * (9/2) + pr * (11/2) + ps * 7

/-! ## Ensemble weights (`EnsembleAlphaModels._compute_ensemble_weights`) -/

/-- The four learners of the ensemble
(`EnsembleAlphaModels.MODEL_NAMES = ['ridge', 'gbm', 'rf', 'xgb']`). -/
inductive ModelName
| ridge
| gbm
| rf
| xgb
deriving DecidableEq, Repr

/-- `EnsembleAlphaModels._compute_ensemble_weights`
(`macro_risk_os_v2.py` lines 2096-2144).  Per model the source computes a
rolling exponentially-weighted OOS correlation and clamps it at zero,
`scores[model] = max(corr, 0)` (line 2134); a model with fewer than 12 OOS
points, or with degenerate standard deviations, gets `0.0`, which is the
image of any non-positive `raw` value under the same clamp.  The
real-valued correlation enters here as the parameter `raw`; the clamp,
the normalisation `scores[m]/total` when `total > 0`, and the uniform
fallback `1/n_models` otherwise are the source's lines 2134-2144.
`scoreClamp` is `scores[model] = max(corr, 0)`. -/
def scoreClamp (raw : ModelName → ℚ) (m : ModelName) : ℚ := max (raw m) 0

/-- `total = sum(scores.values())` over the four models (line 2140). -/
def scoreTotal (raw : ModelName → ℚ) : ℚ :=
  scoreClamp raw ModelName.ridge + scoreClamp raw ModelName.gbm +
    scoreClamp raw ModelName.rf + scoreClamp raw ModelName.xgb

def computeEnsembleWeights (raw : ModelName → ℚ) : ModelName → ℚ :=
  if 0 < scoreTotal raw then fun m => scoreClamp raw m / scoreTotal raw
  else fun _ => 1/4

/-- Sum of a model-indexed vector over the four learners. -/
def modelSum (w : ModelName → ℚ) : ℚ :=
  w ModelName.ridge + w ModelName.gbm + w ModelName.rf + w ModelName.xgb

/-! ## IC gating (`ProductionEngine.step`, lines 2992-3016) -/

/-- `ic_max` as computed in `ProductionEngine.step` (lines 2998-3001):
the maximum of the valid IC scores (`0.3` when there are none), floored at
`0.1`. -/
def icMaxOf (validIcs : List ℚ) : ℚ :=
  max (match validIcs with
       | [] => 3/10
       | x :: xs => xs.foldl max x) (1/10)

/-- The multiplicative factor IC gating applies to `mu`
(`macro_risk_os_v2.py` lines 3007-3016), with the default configuration
`ic_threshold = 0.0`, `ic_floor = 0.15`:
for `ic < threshold` the soft gate
`np.clip(max(ic_floor, (ic+0.1)/(ic_max+0.1)), ic_floor, 1.0)`;
for `ic > 0` the boost `max(min(ic/ic_max, 1.5), 1.0)`; otherwise `mu` is
left untouched (factor 1). -/
def icGateFactor (ic icMax threshold floor : ℚ) : ℚ :=
  if ic < threshold then
    clipNp (max floor ((ic + 1/10) / (icMax + 1/10))) floor 1
  else if 0 < ic then
    max (min (ic / icMax) (3/2)) 1
  else 1

/-- The gated prediction: `mu[inst] = mu[inst] * scale`
(`macro_risk_os_v2.py` lines 3012 and 3016). -/
def gatedMu (mu ic icMax threshold floor : ℚ) : ℚ :=
  mu * icGateFactor ic icMax threshold floor

/-! ## Risk overlays (`RiskOverlays.apply`, lines 2834-2885) -/

/-- The drawdown scale before the floor (`macro_risk_os_v2.py` lines
2838-2853) with the default configuration
`dd_5 = −0.05, dd_10 = −0.10, scale_at_dd_5 = 0.5, scale_at_dd_10 = 0.0`. -/
def drawdownScaleRaw (dd : ℚ) : ℚ :=
  if dd ≤ -1/10 then 0
  else if dd ≤ -1/20 then
    (1/2) * (1 - (dd - (-1/20)) / ((-1/10) - (-1/20)))
      + 0 * ((dd - (-1/20)) / ((-1/10) - (-1/20)))
  else if dd ≤ 0 then
    1 * (1 - dd / (-1/20)) + (1/2) * (dd / (-1/20))
  else 1

/-- Line 2855: `scale = max(scale, 0.10)`. -/
def drawdownScale (dd : ℚ) : ℚ := max (drawdownScaleRaw dd) (1/10)

/-- Vol-targeting multiplier (lines 2859-2862) with the default
`overlay_vol_target_annual = 0.10`: applied only when the realised vol is
positive. -/
def volScale (vol : ℚ) : ℚ := if 0 < vol then min 1 ((1/10) / vol) else 1

/-- Circuit-breaker multiplier (lines 2868-2883): hard cuts per instrument
when `P_riskoff > 0.7` and `P_domestic_stress > 0.7`. -/
def cbFactor (probs : RegimeProbs) (i : Inst) : ℚ :=
  if 7/10 < probs.pRiskoff ∧ 7/10 < probs.pDomStress then
    match i with
    | Inst.belly => 1/2
    | Inst.long => 1/2
    | Inst.hard => 2/5
    | Inst.ntnb => 2/5
    | Inst.front => 7/10
    | Inst.fx => 1
  else 1

/-- `RiskOverlays.apply` (lines 2834-2885): drawdown scaling, then vol
targeting, then the circuit breaker, each a multiplication of the weight
dictionary. -/
def riskOverlaysApply (w : Inst → ℚ) (dd vol : ℚ) (probs : RegimeProbs) :
    Inst → ℚ :=
  fun i => w i * drawdownScale dd * volScale vol * cbFactor probs i

/-- The combined overlay multiplier for one instrument. -/
def overlayMult (dd vol : ℚ) (probs : RegimeProbs) (i : Inst) : ℚ :=
  drawdownScale dd * volScale vol * cbFactor probs i

/-! ## Optimiser position limits and fallback (`Optimizer.optimize`) -/

/-- `position_limits` of `DEFAULT_CONFIG` (lines 59-66), also the carry
table of `regime_position_limits` (lines 98-105). -/
def carryLimit : Inst → ℚ
| Inst.fx => 1
| Inst.front => 3/2
| Inst.belly => 3/2
| Inst.long => 3/4
| Inst.hard => 1
| Inst.ntnb => 1/2

/-- The risk-off table of `regime_position_limits` (lines 107-114). -/
def riskoffLimit : Inst → ℚ
| Inst.fx => 4/5
| Inst.front => 1
| Inst.belly => 3/4
| Inst.long => 2/5
| Inst.hard => 3/5
| Inst.ntnb => 3/10

/-- The stress table of `regime_position_limits` (lines 116-123). -/
def stressLimit : Inst → ℚ
| Inst.fx => 1/2
| Inst.front => 1/2
| Inst.belly => 2/5
| Inst.long => 1/4
| Inst.hard => 3/10
| Inst.ntnb => 3/20

/-- The effective regime-blended position bound `U_i` (lines 2780-2796):
the probability-weighted blend of the three per-regime tables; the bound is
symmetric, `bounds = (−max_w, max_w)` (line 2803). -/
def effLimits (probs : RegimeProbs) (i : Inst) : ℚ :=
  probs.pCarry * carryLimit i + probs.pRiskoff * riskoffLimit i
    + probs.pStress * stressLimit i

/-- The six instruments in the order of `sorted(mu.keys())` is irrelevant
to the claims; any fixed enumeration serves. -/
def instList : List Inst :=
  [Inst.fx, Inst.front, Inst.belly, Inst.long, Inst.hard, Inst.ntnb]

/-- `max(ic_scores.get(inst, 0), 0)` per instrument (line 2749). -/
def icPos (icScores : Inst → Option ℚ) (i : Inst) : ℚ :=
  max ((icScores i).getD 0) 0

/-- `total_ic = ic_pos.sum()` (line 2750). -/
def icTotal (icScores : Inst → Option ℚ) : ℚ :=
  (instList.map (icPos icScores)).sum

/-- The dynamic risk budget `budget_scale` (lines 2747-2755): with IC
scores for at least 3 instruments, normalise the positive parts so they
sum to `n = 6`, or use `0.5` everywhere when all ICs are non-positive;
without enough IC scores, all ones. -/
def budgetScale (icScores : Inst → Option ℚ) : Inst → ℚ :=
  if 3 ≤ (instList.filter (fun i => (icScores i).isSome)).length then
    (if 0 < icTotal icScores then fun i => icPos icScores i / icTotal icScores * 6
     else fun _ => 1/2)
  else fun _ => 1

/-- The `Optimizer.optimize` fallback taken when the SQP solver fails
(lines 2815-2820): `weights[inst] = mu[inst] * budget_scale[inst] * 0.5`,
returned with NO projection into the position bounds. -/
def optimizeFallback (mu : Inst → ℚ) (icScores : Inst → Option ℚ) :
    Inst → ℚ :=
  fun i => mu i * budgetScale icScores i * (1/2)

/-! ## Score demeaning (`ProductionEngine._demean_score` / `step`) -/

/-- The last `n` entries of a list (`history[-window:]`). -/
def takeLast (n : ℕ) (l : List α) : List α := l.drop (l.length - n)

/-- `np.mean` of a list of rationals. -/
def listMean (l : List ℚ) : ℚ := l.sum / l.length

/-- The square of `np.std` (population variance). -/
def listVar (l : List ℚ) : ℚ := (l.map (fun x => (x - listMean l)^2)).sum / l.length

/-- The raw composite score `raw_score = sum(mu.values())`
(`macro_risk_os_v2.py` line 3019). -/
def rawScore (mu : Inst → ℚ) : ℚ := (instList.map mu).sum

/-- `ProductionEngine._demean_score` (lines 2927-2942) with the default
`score_demeaning_window = 60`: append the raw score to the history, take
the last 60, return the raw score unchanged when fewer than 12 are
available, else `(raw − mean) / max(std, 0.5)`.  `np.std` is the
population standard deviation, a real square root, so this definition
lives in `ℝ`. -/
noncomputable def demeanScore (history : List ℚ) (raw : ℚ) : ℝ :=
  if (takeLast 60 (history ++ [raw])).length < 12 then (raw : ℝ)
  else ((raw : ℝ) - (listMean (takeLast 60 (history ++ [raw])) : ℝ))
    / max (Real.sqrt ((listVar (takeLast 60 (history ++ [raw])) : ℚ) : ℝ)) (1/2)

/-- The scale factor applied to every `mu` after demeaning
(`macro_risk_os_v2.py` lines 3022-3029): when `|raw| > 0.005` the ratio
`demeaned/raw` clipped to `[−3, 3]`; otherwise `1.0` when
`|demeaned| < 0.01` and `0.0` when not. -/
noncomputable def scaleFactor (raw : ℚ) (demeaned : ℝ) : ℝ :=
  if 1/200 < |raw| then min (max (demeaned / (raw : ℝ)) (-3)) 3
  else if |demeaned| < 1/100 then 1 else 0

/-- `mu_demeaned = {inst: m * scale_factor for inst, m in mu.items()}`
(line 3031) — the `mu` entering regime scaling. -/
noncomputable def muDemeaned (mu : Inst → ℚ) (sf : ℝ) : Inst → ℝ :=
  fun i => (mu i : ℝ) * sf

/-- A concrete prediction vector used as explicit input in the score
demeaning analysis: `mu_fx = 1/2`, `mu_front = −1/2`, the rest `0`; its
composite score is `0`. -/
def cxMu : Inst → ℚ
| Inst.fx => 1/2
| Inst.front => -1/2
| _ => 0

/-! ## Quantiles and winsorisation (`winsorize`, np.percentile) -/

/-- Index-interpolated order statistic: the value at fractional position
`h` of the sorted list `s` under linear interpolation, the shared kernel of
`pandas.Series.quantile` and `np.percentile` (default `'linear'`
interpolation): with `i = ⌊h⌋`, `s[i] + (h − i)·(s[i+1] − s[i])`, the last
element when `i + 1` runs past the end. -/
def interpAt (s : List ℚ) (h : ℚ) : ℚ :=
  (s.getD (Int.floor h).toNat 0)
    + (h - (Int.floor h).toNat) *
      (s.getD ((Int.floor h).toNat + 1) (s.getD (Int.floor h).toNat 0)
        - s.getD (Int.floor h).toNat 0)

/-- `pandas.Series.quantile(q)` for `q ∈ [0, 1]`: linear interpolation at
position `q·(n−1)` of the sorted values. -/
def quantileLinear (xs : List ℚ) (q : ℚ) : ℚ :=
  interpAt (List.insertionSort (· ≤ ·) xs) (q * ((xs.length : ℚ) - 1))

/-- `np.percentile(xs, q)` for `q ∈ [0, 100]`. -/
def percentileNp (xs : List ℚ) (q : ℚ) : ℚ := quantileLinear xs (q / 100)

/-- `winsorize(s, 0.05, 0.95)` (`macro_risk_os_v2.py` lines 166-172):
pass-through when fewer than 10 observations, else clip every value to the
series' own 5th/95th quantiles. -/
def winsorize (s : List ℚ) : List ℚ :=
  if s.length < 10 then s
  else s.map (fun x => min (max x (quantileLinear s (1/20))) (quantileLinear s (19/20)))

/-! ## FX instrument returns (`DataLayer.compute_instrument_returns`) -/

/-- `Series.pct_change()`: first observation NaN, then `v_t/v_{t−1} − 1`. -/
def pctChange (s : List (Nat × ℚ)) : List (Nat × Option ℚ) :=
  match s with
  | [] => []
  | (d, _) :: _ =>
    (d, none) :: (s.zip s.tail).map (fun p => (p.2.1, some (p.2.2 / p.1.2 - 1)))

/-- `Series.shift(1)`: first observation NaN, then the prior value. -/
def shiftOne (s : List (Nat × ℚ)) : List (Nat × Option ℚ) :=
  match s with
  | [] => []
  | (d, _) :: _ =>
    (d, none) :: (s.zip s.tail).map (fun p => (p.2.1, some p.1.2))

/-- First value stored at date `d` (NaN when the date is absent). -/
def lookupQ (d : Nat) : List (Nat × Option ℚ) → Option ℚ
| [] => none
| (k, v) :: rest => if d = k then v else lookupQ d rest

/-- `Series.reindex(idx)`: one row per requested date, NaN when absent. -/
def reindexTo (idx : List Nat) (s : List (Nat × Option ℚ)) : List (Nat × Option ℚ) :=
  idx.map (fun d => (d, lookupQ d s))

/-- `Index.intersection`, keeping the left order. -/
def commonIdx (a b : List Nat) : List Nat := a.filter (fun d => d ∈ b)

/-- Pointwise subtraction of two equally-indexed series; NaN propagates. -/
def zipSubOpt (a b : List (Nat × Option ℚ)) : List (Nat × Option ℚ) :=
  (a.zip b).map (fun p => (p.1.1,
    match p.1.2, p.2.2 with
    | some x, some y => some (x - y)
    | _, _ => none))

/-- `Series.dropna()`. -/
def dropna (s : List (Nat × Option ℚ)) : List (Nat × ℚ) :=
  s.filterMap (fun r => r.2.map (fun v => (r.1, v)))

/-- The fx instrument return on the cupom-cambial branch
(`macro_risk_os_v2.py` lines 463-479):
`fwd_premium = cupom_1m/100/12`, `common = spot_ret.index ∩ premium.index`,
`fx_ret = spot_ret.reindex(common) − fwd_premium.shift(1).reindex(common)`,
and the STORED series is `fx_ret.dropna()` — with no winsorisation (line
478), unlike the other five instruments. -/
def fxReturns (spot cupom : List (Nat × ℚ)) : List (Nat × ℚ) :=
  dropna (zipSubOpt
    (reindexTo (commonIdx ((pctChange spot).map Prod.fst)
      ((cupom.map (fun r => (r.1, r.2 / 100 / 12))).map Prod.fst)) (pctChange spot))
    (reindexTo (commonIdx ((pctChange spot).map Prod.fst)
      ((cupom.map (fun r => (r.1, r.2 / 100 / 12))).map Prod.fst))
      (shiftOne (cupom.map (fun r => (r.1, r.2 / 100 / 12))))))

/-- A concrete 14-month spot series (satisfying the source's
`len(spot_m) > 12` guard): halving in the first month, then constant. -/
def cxSpot : List (Nat × ℚ) :=
  [(0,2),(1,1),(2,1),(3,1),(4,1),(5,1),(6,1),(7,1),(8,1),(9,1),(10,1),(11,1),(12,1),(13,1)]

/-- A concrete 14-month cupom-cambial series (satisfying
`len(cupom_1m) > 12`): identically zero carry. -/
def cxCupom : List (Nat × ℚ) :=
  [(0,0),(1,0),(2,0),(3,0),(4,0),(5,0),(6,0),(7,0),(8,0),(9,0),(10,0),(11,0),(12,0),(13,0)]

/-! ## Stability selector thresholds (`feature_selection.py` lines 639-658) -/

/-- The three stability classes of `StabilitySelector`. -/
inductive StabilityClass
| robust
| moderate
| unstable
deriving DecidableEq, Repr

/-- The adaptive thresholds (`feature_selection.py` lines 641-647):
`p75 = np.percentile(composite, 75)`, `p40 = np.percentile(composite, 40)`;
when `p75 − p40 < 0.05` retry with the 70th and 35th percentiles. -/
def adaptiveThresholds (composite : List ℚ) : ℚ × ℚ :=
  if percentileNp composite 75 - percentileNp composite 40 < 1/20 then
    (percentileNp composite 70, percentileNp composite 35)
  else (percentileNp composite 75, percentileNp composite 40)

/-- The classification rule (`feature_selection.py` lines 650-658):
`robust` when `score ≥ p75`-threshold, `moderate` when `≥ p40`-threshold,
else `unstable`. -/
def classifyScore (score trob tmod : ℚ) : StabilityClass :=
  if trob ≤ score then StabilityClass.robust
  else if tmod ≤ score then StabilityClass.moderate
  else StabilityClass.unstable

/-! ## Data consumed per walk-forward step (`ProductionEngine.step`,
`BacktestHarness.run`, `RegimeModel._fit_hmm`) -/

/-- The row consumed by the regime lookup `get_probs_at(asof)` (line 2952):
the last row of `regime_probs.loc[:asof]`. -/
def regimeLookupDates (probs : List (Nat × RegimeProbs)) (t : Nat) : List Nat :=
  (((locLe t probs).getLast?).map Prod.fst).toList

/-- The aligned training index: `ret_df[inst].loc[:asof]` intersected with
`feat_df.loc[:asof]` (lines 2972-2977 and 1944-1950). -/
def joinDates (ret feat : List (Nat × ℚ)) (t : Nat) : List Nat :=
  ((locLe t ret).map Prod.fst).filter (fun d => d ∈ (locLe t feat).map Prod.fst)

/-- Rows consumed by the periodic hyperparameter refit (lines 2972-2980):
the aligned slice truncated to the last `training_window_months = 36`. -/
def hpRefitDates (ret feat : List (Nat × ℚ)) (t : Nat) : List Nat :=
  takeLast 36 (joinDates ret feat t)

/-- Rows consumed by `fit_and_predict` training (lines 1944-1957; the
default `expanding_window = True` keeps the whole aligned slice). -/
def fitTrainDates (ret feat : List (Nat × ℚ)) (t : Nat) : List Nat :=
  joinDates ret feat t

/-- The prediction row: `get_features_at(asof)` = last row of
`feature_df.loc[:asof]` (lines 1664-1674 and 1993). -/
def latestFeatureDates (feat : List (Nat × ℚ)) (t : Nat) : List Nat :=
  (((locLe t feat).getLast?).map Prod.fst).toList

/-- Rows consumed by covariance estimation (lines 3068-3084): the last
`min(cov_window, len)` rows of `ret_df.loc[:asof]` when more than 24 are
available. -/
def covDates (ret : List (Nat × ℚ)) (t : Nat) : List Nat :=
  if 24 < (locLe t ret).length then
    takeLast (min 36 (locLe t ret).length) ((locLe t ret).map Prod.fst)
  else []

/-- All rows consumed by the computations that determine the step's
decision outputs (regime lookup, hyperparameter refit, model training,
prediction row, covariance); the optimiser and overlays consume only these
products. -/
def stepDecisionDates (ret feat : List (Nat × ℚ))
    (probs : List (Nat × RegimeProbs)) (t : Nat) : List Nat :=
  regimeLookupDates probs t ++ hpRefitDates ret feat t
    ++ fitTrainDates ret feat t ++ latestFeatureDates feat t ++ covDates ret t

/-- Rows consumed by an HMM (re)fit at `asof` (`_fit_hmm`, lines
2590-2599): the observables sliced by `obs_df.loc[:asof_date]`; the
standardisation then uses exactly those rows. -/
def hmmFitDates (obs : List (Nat × ℚ)) (t : Nat) : List Nat :=
  (locLe t obs).map Prod.fst

/-- Rows consumed by the equilibrium recompute
(`update_equilibrium_with_regime`, lines 1569-1630): the cached per-model
r\* series and macro series are passed whole to
`CompositeEquilibriumRate.compute`, which takes no as-of date — the full
index is read. -/
def recomputeDates (cachedSeries : List (Nat × ℚ)) : List Nat :=
  cachedSeries.map Prod.fst

/-- Every row index consumed during one `ProductionEngine.step(asof)`,
including the equilibrium recompute of step 1b (line 2957). -/
def stepAllDates (ret feat cachedSeries : List (Nat × ℚ))
    (probs : List (Nat × RegimeProbs)) (t : Nat) : List Nat :=
  stepDecisionDates ret feat probs t ++ recomputeDates cachedSeries

/-! ## Shared small lemmas -/

theorem clipNp_le_hi (x lo hi : ℚ) : clipNp x lo hi ≤ hi := min_le_right _ _

theorem lo_le_clipNp (x lo hi : ℚ) (h : lo ≤ hi) : lo ≤ clipNp x lo hi :=
  le_min (le_trans (le_max_right x lo) (le_refl _)) h

theorem getLast?_mem_of_eq {l : List α} {a : α} (h : l.getLast? = some a) : a ∈ l := by
  have hmem : a ∈ l.getLast? := by rw [h]; rfl
  obtain ⟨hne, hEq⟩ := List.mem_getLast?_eq_getLast hmem
  exact hEq ▸ List.getLast_mem hne

theorem natFloor_le_self {x : ℚ} (hx : 0 ≤ x) : ((Int.floor x).toNat : ℚ) ≤ x := by
  have h := Int.floor_le x
  have hnn : 0 ≤ Int.floor x := Int.floor_nonneg.mpr hx
  rw [show ((Int.floor x).toNat : ℚ) = ((Int.floor x : ℤ) : ℚ) by
    exact_mod_cast congrArg (fun z : ℤ => (z : ℚ)) (Int.toNat_of_nonneg hnn)]
  exact h

theorem self_lt_natFloor_add_one {x : ℚ} (hx : 0 ≤ x) :
    x < ((Int.floor x).toNat : ℚ) + 1 := by
  have h := Int.lt_floor_add_one x
  have hnn : 0 ≤ Int.floor x := Int.floor_nonneg.mpr hx
  rw [show ((Int.floor x).toNat : ℚ) = ((Int.floor x : ℤ) : ℚ) by
    exact_mod_cast congrArg (fun z : ℤ => (z : ℚ)) (Int.toNat_of_nonneg hnn)]
  exact_mod_cast h

theorem natFloor_mono {x y : ℚ} (hxy : x ≤ y) :
    (Int.floor x).toNat ≤ (Int.floor y).toNat :=
  Int.toNat_le_toNat (Int.floor_le_floor hxy)

theorem natFloor_lt_length {x : ℚ} {n : ℕ} (hx : 0 ≤ x) (hub : x ≤ (n : ℚ) - 1) :
    (Int.floor x).toNat < n := by
  have h1 : ((Int.floor x).toNat : ℚ) ≤ (n : ℚ) - 1 := le_trans (natFloor_le_self hx) hub
  have h2 : ((Int.floor x).toNat : ℚ) + 1 ≤ (n : ℚ) := by linarith
  exact_mod_cast h2

theorem getD_mono_sorted {s : List ℚ} (hs : s.Sorted (· ≤ ·)) {i j : ℕ}
    (hij : i ≤ j) (hj : j < s.length) : s.getD i 0 ≤ s.getD j 0 := by
  have hi : i < s.length := lt_of_le_of_lt hij hj
  rw [List.getD_eq_getElem s 0 hi, List.getD_eq_getElem s 0 hj]
  rcases eq_or_lt_of_le hij with rfl | hlt
  · exact le_refl _
  · have hrel := hs.rel_get_of_lt (a := ⟨i, hi⟩) (b := ⟨j, hj⟩) (Fin.mk_lt_mk.mpr hlt)
    simpa [List.get_eq_getElem] using hrel

theorem getD_succ_self_le {s : List ℚ} (hs : s.Sorted (· ≤ ·)) {i : ℕ}
    (hi : i < s.length) : s.getD i 0 ≤ s.getD (i+1) (s.getD i 0) := by
  rcases lt_or_le (i+1) s.length with hlt | hge
  · rw [List.getD_eq_getElem s _ hlt, List.getD_eq_getElem s 0 hi]
    have hrel := hs.rel_get_of_lt (a := ⟨i, hi⟩) (b := ⟨i+1, hlt⟩)
      (Fin.mk_lt_mk.mpr (Nat.lt_succ_self i))
    simpa [List.get_eq_getElem] using hrel
  · rw [List.getD_eq_default _ _ hge]

theorem getD_succ_out_of_range {s : List ℚ} {i : ℕ} (hi : s.length ≤ i + 1) (d : ℚ) :
    s.getD (i+1) d = d := List.getD_eq_default _ _ hi

theorem interp_cells_mono {s : List ℚ} (hs : s.Sorted (· ≤ ·)) {i1 i2 : ℕ} {h1 h2 : ℚ}
    (hi1 : i1 < s.length) (hi2 : i2 < s.length) (hle : i1 ≤ i2)
    (_ha : (i1 : ℚ) ≤ h1) (hb : h1 ≤ (i1 : ℚ) + 1) (hc : (i2 : ℚ) ≤ h2) (hd : h1 ≤ h2) :
    s.getD i1 0 + (h1 - i1) * (s.getD (i1+1) (s.getD i1 0) - s.getD i1 0)
      ≤ s.getD i2 0 + (h2 - i2) * (s.getD (i2+1) (s.getD i2 0) - s.getD i2 0) := by
  rcases eq_or_lt_of_le hle with rfl | hlt
  · have hm : 0 ≤ s.getD (i1+1) (s.getD i1 0) - s.getD i1 0 :=
      sub_nonneg.mpr (getD_succ_self_le hs hi1)
    have hprod : 0 ≤ (h2 - h1) * (s.getD (i1+1) (s.getD i1 0) - s.getD i1 0) :=
      mul_nonneg (sub_nonneg.mpr hd) hm
    nlinarith [hprod]
  · have hsucc : i1 + 1 ≤ i2 := Nat.succ_le_of_lt hlt
    have hi1p : i1 + 1 < s.length := lt_of_le_of_lt hsucc hi2
    have hm1 : 0 ≤ s.getD (i1+1) (s.getD i1 0) - s.getD i1 0 :=
      sub_nonneg.mpr (getD_succ_self_le hs hi1)
    have hm2 : 0 ≤ s.getD (i2+1) (s.getD i2 0) - s.getD i2 0 :=
      sub_nonneg.mpr (getD_succ_self_le hs hi2)
    have hstep1 : s.getD i1 0 + (h1 - i1) * (s.getD (i1+1) (s.getD i1 0) - s.getD i1 0)
        ≤ s.getD (i1+1) (s.getD i1 0) := by
      have hprod : 0 ≤ (1 - (h1 - (i1 : ℚ))) * (s.getD (i1+1) (s.getD i1 0) - s.getD i1 0) :=
        mul_nonneg (by linarith) hm1
      nlinarith [hprod]
    have hstep2 : s.getD (i1+1) (s.getD i1 0) ≤ s.getD i2 0 := by
      have hdef : s.getD (i1+1) (s.getD i1 0) = s.getD (i1+1) 0 := by
        rw [List.getD_eq_getElem s _ hi1p, List.getD_eq_getElem s 0 hi1p]
      rw [hdef]
      exact getD_mono_sorted hs hsucc hi2
    have hstep3 : s.getD i2 0
        ≤ s.getD i2 0 + (h2 - i2) * (s.getD (i2+1) (s.getD i2 0) - s.getD i2 0) := by
      have hprod : 0 ≤ (h2 - (i2 : ℚ)) * (s.getD (i2+1) (s.getD i2 0) - s.getD i2 0) :=
        mul_nonneg (by linarith) hm2
      linarith
    linarith

theorem interpAt_mono {s : List ℚ} (hs : s.Sorted (· ≤ ·)) {h1 h2 : ℚ}
    (h0 : 0 ≤ h1) (h12 : h1 ≤ h2) (hub : h2 ≤ (s.length : ℚ) - 1) :
    interpAt s h1 ≤ interpAt s h2 := by
  have h02 : 0 ≤ h2 := le_trans h0 h12
  unfold interpAt
  exact interp_cells_mono hs
    (natFloor_lt_length h0 (le_trans h12 hub))
    (natFloor_lt_length h02 hub)
    (natFloor_mono h12)
    (natFloor_le_self h0)
    (le_of_lt (self_lt_natFloor_add_one h0))
    (natFloor_le_self h02)
    h12

theorem quantileLinear_mono (xs : List ℚ) {q1 q2 : ℚ}
    (h0 : 0 ≤ q1) (h12 : q1 ≤ q2) (h2 : q2 ≤ 1) :
    quantileLinear xs q1 ≤ quantileLinear xs q2 := by
  unfold quantileLinear
  rcases Nat.eq_zero_or_pos xs.length with hz | hpos
  · have hxs : xs = [] := List.length_eq_zero.mp hz
    subst hxs
    simp [interpAt]
  · have hlen : (0 : ℚ) ≤ (xs.length : ℚ) - 1 := by
      have h1 : (1 : ℚ) ≤ (xs.length : ℚ) := by exact_mod_cast hpos
      linarith
    apply interpAt_mono (List.sorted_insertionSort _ xs)
    · exact mul_nonneg h0 hlen
    · exact mul_le_mul_of_nonneg_right h12 hlen
    · rw [List.length_insertionSort]
      calc q2 * ((xs.length : ℚ) - 1) ≤ 1 * ((xs.length : ℚ) - 1) :=
          mul_le_mul_of_nonneg_right h2 hlen
        _ = (xs.length : ℚ) - 1 := one_mul _

/-! ## C4 — regime probability row sums -/

/-- C4 (counterexample): the uniform-prior fallback returned by
`get_probs_at` when no HMM fit is available does NOT sum to 1 within 1e-8
over the global trio: the source hard-codes `0.33` per state
(lines 2674-2677), so the trio sums to `0.99`, off by `0.01 > 1e-8`. -/
theorem regime_fallback_trio_sum_off :
    1/100000000 < |globalTrioSum (getProbsAt [] 0) - 1| := by
  have h : globalTrioSum (getProbsAt [] 0) = 99/100 := by
    simp [getProbsAt, locLe, defaultProbs, globalTrioSum]
    norm_num
  rw [h]
  rw [show (99:ℚ)/100 - 1 = -(1/100) by norm_num, abs_neg, abs_of_nonneg (by norm_num)]
  norm_num

/-- C4 (amended): a row looked up by `get_probs_at` is either a stored
fitted row — which keeps whatever sums the fit produced, in particular 1
within each level when the HMM posteriors do — or the hard-coded fallback,
whose global trio sums to `0.99` (not 1) and whose domestic pair sums
to 1. -/
theorem regime_probs_lookup_sums (table : List (Nat × RegimeProbs)) (d : Nat)
    (h : ∀ p ∈ table, globalTrioSum p.2 = 1 ∧ domPairSum p.2 = 1) :
    ((globalTrioSum (getProbsAt table d) = 1 ∧ domPairSum (getProbsAt table d) = 1)
      ∨ getProbsAt table d = defaultProbs)
    ∧ globalTrioSum defaultProbs = 99/100 ∧ domPairSum defaultProbs = 1 := by
  refine ⟨?_, by norm_num [globalTrioSum, defaultProbs],
    by norm_num [domPairSum, defaultProbs]⟩
  rcases hlast : (locLe d table).getLast? with _ | r
  · right
    simp [getProbsAt, hlast]
  · left
    have hmem : r ∈ locLe d table := getLast?_mem_of_eq hlast
    have hmem2 : r ∈ table := List.mem_of_mem_filter hmem
    have hr := h r hmem2
    simpa [getProbsAt, hlast] using hr

/-- C4 (witness for the amended theorem): a concrete one-row table whose
row sums to 1 in both levels. -/
theorem regime_probs_lookup_sums_witness :
    (globalTrioSum (getProbsAt [(0, ⟨1/3, 1/3, 1/3, 1/2, 1/2⟩)] 0) = 1
      ∧ domPairSum (getProbsAt [(0, ⟨1/3, 1/3, 1/3, 1/2, 1/2⟩)] 0) = 1)
    ∨ getProbsAt [(0, ⟨1/3, 1/3, 1/3, 1/2, 1/2⟩)] 0 = defaultProbs :=
  (regime_probs_lookup_sums [(0, ⟨1/3, 1/3, 1/3, 1/2, 1/2⟩)] 0 (by
    intro p hp
    simp only [List.mem_singleton] at hp
    subst hp
    constructor <;> norm_num [globalTrioSum, domPairSum])).1

/-! ## C5 — equilibrium estimates and the [2, 10] clip -/

/-- C5 (counterexample): two of the five models violate the `[2%, 10%]`
claim.  The Real-Rate-Parity model is clipped to `[2.0, 12.0]`
(`composite_equilibrium.py` line 296), not `[2, 10]`: at US real rate 5,
CDS 300bp, debt/GDP 160 it emits 11 > 10.  And the Market-Implied model
clips only its NOMINAL estimate, to `[6, 18]` (line 421), before
subtracting inflation expectations (lines 443-447): at nominal 6 with
inflation expectations 5 it emits the real estimate 1 < 2. -/
theorem rstar_range_violations :
    10 < realRateParityRStar 5 300 0 15 15 160 0
    ∧ marketImpliedRStarReal 6 (some 5) < 2 := by
  constructor
  · norm_num [realRateParityRStar, countryRisk, vixAdjust, structuralPremium,
      totAdjust, clipNp]
  · norm_num [marketImpliedRStarReal, marketImpliedNominal, clipNp]

theorem kalmanStates_range (updates : List (Option ℚ)) :
    ∀ (x0 : ℚ), 2 ≤ x0 → x0 ≤ 10 →
      ∀ v ∈ kalmanStates updates x0, 2 ≤ v ∧ v ≤ 10 := by
  induction updates with
  | nil =>
    intro x0 h2 h10 v hv
    simp [kalmanStates] at hv
  | cons u rest ih =>
    intro x0 h2 h10 v hv
    cases u with
    | none =>
      rw [show kalmanStates (none :: rest) x0 = x0 :: kalmanStates rest x0 from rfl] at hv
      rcases List.mem_cons.mp hv with rfl | hv2
      · exact ⟨h2, h10⟩
      · exact ih x0 h2 h10 v hv2
    | some w =>
      rw [show kalmanStates (some w :: rest) x0
          = clipNp w 2 10 :: kalmanStates rest (clipNp w 2 10) from rfl] at hv
      rcases List.mem_cons.mp hv with rfl | hv2
      · exact ⟨lo_le_clipNp _ _ _ (by norm_num), clipNp_le_hi _ _ _⟩
      · exact ih (clipNp w 2 10) (lo_le_clipNp _ _ _ (by norm_num))
          (clipNp_le_hi _ _ _) v hv2

theorem regimeSwitching_range (pc pr ps : ℚ) (hc : 0 ≤ pc) (hr : 0 ≤ pr)
    (hs : 0 ≤ ps) :
    2 ≤ regimeSwitchingRStarAt pc pr ps ∧ regimeSwitchingRStarAt pc pr ps ≤ 10 := by
  unfold regimeSwitchingRStarAt
  split_ifs with hT
  · have hval : pc / (pc+pr+ps) * (9/2) + pr / (pc+pr+ps) * (11/2)
        + ps / (pc+pr+ps) * 7
        = (pc * (9/2) + pr * (11/2) + ps * 7) / (pc + pr + ps) := by
      field_simp
      ring
    rw [hval]
    constructor
    · rw [le_div_iff₀ hT]
      linarith
    · rw [div_le_iff₀ hT]
      linarith
  · have h0 : pc + pr + ps ≤ 0 := not_lt.mp hT
    have hr0 : pr = 0 := le_antisymm (by linarith) hr
    have hs0 : ps = 0 := le_antisymm (by linarith) hs
    rw [hr0, hs0]
    norm_num

/-- C5 (amended): the Fiscal-Augmented estimate is clipped to `[2, 10]`;
the Kalman state is clipped to `[2, 10]` at every update, so starting from
the in-range initial state `4.5` every emitted state-space estimate lies
in `[2, 10]`; the Regime-Switching estimate is a normalised mix of the
regime means `{4.5, 5.5, 7.0}` and hence lies in `[2, 10]` for
non-negative regime probabilities (its adaptive pass re-clips to `[2, 10]`
besides).  But the Real-Rate-Parity estimate is clipped to the wider
`[2, 12]`, and the Market-Implied model clips only its nominal estimate,
to `[6, 18]`, converting to real afterwards with no `[2, 10]` clip. -/
theorem rstar_model_ranges (fc sc usReal cds embi vix vixMedian debt totZ raw x0 : ℚ)
    (updates : List (Option ℚ)) (pc pr ps : ℚ) :
    (2 ≤ fiscalAugmentedRStar fc sc ∧ fiscalAugmentedRStar fc sc ≤ 10)
    ∧ (2 ≤ realRateParityRStar usReal cds embi vix vixMedian debt totZ
        ∧ realRateParityRStar usReal cds embi vix vixMedian debt totZ ≤ 12)
    ∧ (2 ≤ x0 → x0 ≤ 10 → ∀ v ∈ kalmanStates updates x0, 2 ≤ v ∧ v ≤ 10)
    ∧ (0 ≤ pc → 0 ≤ pr → 0 ≤ ps →
        2 ≤ regimeSwitchingRStarAt pc pr ps ∧ regimeSwitchingRStarAt pc pr ps ≤ 10)
    ∧ (6 ≤ marketImpliedNominal raw ∧ marketImpliedNominal raw ≤ 18) :=
  ⟨⟨lo_le_clipNp _ 2 10 (by norm_num), clipNp_le_hi _ 2 10⟩,
   ⟨lo_le_clipNp _ 2 12 (by norm_num), clipNp_le_hi _ 2 12⟩,
   fun h2 h10 => kalmanStates_range updates x0 h2 h10,
   fun hc hr hs => regimeSwitching_range pc pr ps hc hr hs,
   ⟨lo_le_clipNp _ 6 18 (by norm_num), clipNp_le_hi _ 6 18⟩⟩

/-- C5 (witness for the amended theorem): the pure-carry regime mix and
the initial Kalman state at a concrete update. -/
theorem rstar_model_ranges_witness :
    2 ≤ regimeSwitchingRStarAt 1 0 0 ∧ regimeSwitchingRStarAt 1 0 0 ≤ 10 :=
  (rstar_model_ranges 0 0 0 0 0 0 1 0 0 0 (9/2) [] 1 0 0).2.2.2.1
    (by norm_num) (by norm_num) (by norm_num)

/-! ## C7 — IC gating is soft -/

/-- C7: IC gating never zeroes a prediction.  The gate factor is strictly
positive in every branch; when `IC` is below the threshold it is at least
the floor `0.15`; when `IC ≤ 0` the factor is at most 1, so gating only
reduces `|mu|`; and a non-zero `mu` stays non-zero. -/
theorem ic_gating_soft (mu ic icMax threshold : ℚ) :
    0 < icGateFactor ic icMax threshold (3/20)
    ∧ (ic < threshold → 3/20 ≤ icGateFactor ic icMax threshold (3/20))
    ∧ (ic ≤ 0 → |gatedMu mu ic icMax threshold (3/20)| ≤ |mu|)
    ∧ (mu ≠ 0 → gatedMu mu ic icMax threshold (3/20) ≠ 0) := by
  have hfac : 0 < icGateFactor ic icMax threshold (3/20)
      ∧ (ic ≤ 0 → icGateFactor ic icMax threshold (3/20) ≤ 1)
      ∧ (ic < threshold → 3/20 ≤ icGateFactor ic icMax threshold (3/20)) := by
    rcases lt_or_le ic threshold with h1 | h1
    · have hf : icGateFactor ic icMax threshold (3/20)
          = clipNp (max (3/20) ((ic + 1/10) / (icMax + 1/10))) (3/20) 1 := by
        simp only [icGateFactor, if_pos h1]
      have hlo : (3/20 : ℚ) ≤ icGateFactor ic icMax threshold (3/20) := by
        rw [hf]; exact lo_le_clipNp _ _ _ (by norm_num)
      have hhi : icGateFactor ic icMax threshold (3/20) ≤ 1 := by
        rw [hf]; exact clipNp_le_hi _ _ _
      exact ⟨lt_of_lt_of_le (by norm_num) hlo, fun _ => hhi, fun _ => hlo⟩
    · rcases lt_or_le 0 ic with h2 | h2
      · have hf : icGateFactor ic icMax threshold (3/20)
            = max (min (ic / icMax) (3/2)) 1 := by
          simp only [icGateFactor, if_neg (not_lt.mpr h1), if_pos h2]
        have hge : (1 : ℚ) ≤ icGateFactor ic icMax threshold (3/20) := by
          rw [hf]; exact le_max_right _ _
        exact ⟨lt_of_lt_of_le one_pos hge,
          fun hic => absurd h2 (not_lt.mpr hic),
          fun hlt => absurd hlt (not_lt.mpr h1)⟩
      · have hf : icGateFactor ic icMax threshold (3/20) = 1 := by
          simp only [icGateFactor, if_neg (not_lt.mpr h1), if_neg (not_lt.mpr h2)]
        rw [hf]
        exact ⟨one_pos, fun _ => le_refl _, fun hlt => absurd hlt (not_lt.mpr h1)⟩
  refine ⟨hfac.1, hfac.2.2, fun hic => ?_, fun hmu => ?_⟩
  · have h1 := hfac.2.1 hic
    have h0 := le_of_lt hfac.1
    calc |gatedMu mu ic icMax threshold (3/20)|
        = |mu| * |icGateFactor ic icMax threshold (3/20)| := abs_mul _ _
      _ ≤ |mu| * 1 := by
          have : |icGateFactor ic icMax threshold (3/20)| ≤ 1 := by
            rw [abs_of_nonneg h0]; exact h1
          exact mul_le_mul_of_nonneg_left this (abs_nonneg _)
      _ = |mu| := mul_one _
  · exact mul_ne_zero hmu (ne_of_gt hfac.1)

/-- C7 (witness): at `mu = 1`, `IC = −0.1` (below the zero threshold) the
gate factor is at least the floor and the gated `mu` is non-zero. -/
theorem ic_gating_soft_witness :
    3/20 ≤ icGateFactor (-1/10) (3/10) 0 (3/20)
    ∧ gatedMu 1 (-1/10) (3/10) 0 (3/20) ≠ 0 :=
  ⟨(ic_gating_soft 1 (-1/10) (3/10) 0).2.1 (by norm_num),
   (ic_gating_soft 1 (-1/10) (3/10) 0).2.2.2 (by norm_num)⟩

/-! ## C8 — ensemble weights -/

/-- C8: for any raw per-model OOS correlation values, the adaptive
ensemble weights are non-negative and sum exactly to 1 (hence to 1 within
1e-8), both on the clamped-and-normalised branch and on the uniform
fallback. -/
theorem ensemble_weights_nonneg_sum_one (raw : ModelName → ℚ) :
    (∀ m, 0 ≤ computeEnsembleWeights raw m)
    ∧ modelSum (computeEnsembleWeights raw) = 1
    ∧ |modelSum (computeEnsembleWeights raw) - 1| ≤ 1/100000000 := by
  have key : (∀ m, 0 ≤ computeEnsembleWeights raw m)
      ∧ modelSum (computeEnsembleWeights raw) = 1 := by
    by_cases h : 0 < scoreTotal raw
    · have hw : computeEnsembleWeights raw
          = fun m => scoreClamp raw m / scoreTotal raw := by
        simp only [computeEnsembleWeights, if_pos h]
      have hne : scoreTotal raw ≠ 0 := ne_of_gt h
      constructor
      · intro m
        rw [hw]
        exact div_nonneg (le_max_right _ _) h.le
      · rw [hw]
        show scoreClamp raw ModelName.ridge / scoreTotal raw
            + scoreClamp raw ModelName.gbm / scoreTotal raw
            + scoreClamp raw ModelName.rf / scoreTotal raw
            + scoreClamp raw ModelName.xgb / scoreTotal raw = 1
        rw [div_add_div_same, div_add_div_same, div_add_div_same]
        exact div_self hne
    · have hw : computeEnsembleWeights raw = fun _ => 1/4 := by
        simp only [computeEnsembleWeights, if_neg h]
      rw [hw]
      exact ⟨fun m => by norm_num, by norm_num [modelSum]⟩
  refine ⟨key.1, key.2, ?_⟩
  rw [key.2]
  simp

/-! ## C10 / C3 — risk overlays shrink, bounds -/

theorem drawdownScale_bounds (dd : ℚ) :
    1/10 ≤ drawdownScale dd ∧ drawdownScale dd ≤ 1 := by
  refine ⟨le_max_right _ _, max_le ?_ (by norm_num)⟩
  unfold drawdownScaleRaw
  split_ifs with h1 h2 h3
  · norm_num
  · have hx : (dd - -1/20) / ((-1:ℚ)/10 - -1/20) = -20 * dd - 1 := by ring
    rw [hx]
    linarith
  · have hx : dd / ((-1:ℚ)/20) = -20 * dd := by ring
    rw [hx]
    linarith
  · norm_num

theorem volScale_bounds (vol : ℚ) : 0 < volScale vol ∧ volScale vol ≤ 1 := by
  unfold volScale
  split_ifs with h
  · exact ⟨lt_min one_pos (div_pos (by norm_num) h), min_le_left _ _⟩
  · exact ⟨one_pos, le_refl _⟩

theorem cbFactor_bounds (probs : RegimeProbs) (i : Inst) :
    0 < cbFactor probs i ∧ cbFactor probs i ≤ 1 := by
  unfold cbFactor
  split_ifs with h
  · cases i <;> norm_num
  · norm_num

theorem overlayMult_bounds (dd vol : ℚ) (probs : RegimeProbs) (i : Inst) :
    0 < overlayMult dd vol probs i ∧ overlayMult dd vol probs i ≤ 1 := by
  have h1 := drawdownScale_bounds dd
  have h2 := volScale_bounds vol
  have h3 := cbFactor_bounds probs i
  constructor
  · exact mul_pos (mul_pos (lt_of_lt_of_le (by norm_num) h1.1) h2.1) h3.1
  · calc drawdownScale dd * volScale vol * cbFactor probs i
        ≤ 1 * 1 * 1 := by
          apply mul_le_mul _ h3.2 h3.1.le (by norm_num)
          exact mul_le_mul h1.2 h2.2 h2.1.le (by linarith [h1.1])
      _ = 1 := by norm_num

theorem riskOverlaysApply_eq_mult (w : Inst → ℚ) (dd vol : ℚ)
    (probs : RegimeProbs) (i : Inst) :
    riskOverlaysApply w dd vol probs i = overlayMult dd vol probs i * w i := by
  unfold riskOverlaysApply overlayMult
  ring

/-- C10: under the default configuration the risk-overlay stage only
shrinks positions: each instrument's output weight is the input weight
times a single multiplier in `(0, 1]` (the product of the drawdown scale
in `[0.10, 1]`, the vol-targeting scale in `(0, 1]` and the
circuit-breaker factor in `{0.4, 0.5, 0.7, 1}`); hence the sign is
preserved and the magnitude never grows. -/
theorem risk_overlays_only_shrink (w : Inst → ℚ) (dd vol : ℚ)
    (probs : RegimeProbs) (i : Inst) :
    (∃ m : ℚ, 0 < m ∧ m ≤ 1 ∧ riskOverlaysApply w dd vol probs i = m * w i)
    ∧ |riskOverlaysApply w dd vol probs i| ≤ |w i|
    ∧ (0 ≤ w i → 0 ≤ riskOverlaysApply w dd vol probs i)
    ∧ (w i ≤ 0 → riskOverlaysApply w dd vol probs i ≤ 0)
    ∧ (w i ≠ 0 → riskOverlaysApply w dd vol probs i ≠ 0) := by
  obtain ⟨hpos, hle⟩ := overlayMult_bounds dd vol probs i
  have heq := riskOverlaysApply_eq_mult w dd vol probs i
  refine ⟨⟨overlayMult dd vol probs i, hpos, hle, heq⟩, ?_, ?_, ?_, ?_⟩
  · rw [heq, abs_mul, abs_of_pos hpos]
    calc overlayMult dd vol probs i * |w i| ≤ 1 * |w i| :=
        mul_le_mul_of_nonneg_right hle (abs_nonneg _)
      _ = |w i| := one_mul _
  · intro hw
    rw [heq]
    exact mul_nonneg hpos.le hw
  · intro hw
    rw [heq]
    exact mul_nonpos_of_nonneg_of_nonpos hpos.le hw
  · intro hw
    rw [heq]
    exact mul_ne_zero (ne_of_gt hpos) hw

/-- C10 (witness): at unit input weights and benign state the fx output is
non-negative and non-zero. -/
theorem risk_overlays_only_shrink_witness :
    0 ≤ riskOverlaysApply (fun _ => 1) 0 (1/10) ⟨1, 0, 0, 1, 0⟩ Inst.fx
    ∧ riskOverlaysApply (fun _ => 1) 0 (1/10) ⟨1, 0, 0, 1, 0⟩ Inst.fx ≠ 0 :=
  ⟨(risk_overlays_only_shrink (fun _ => 1) 0 (1/10) ⟨1, 0, 0, 1, 0⟩ Inst.fx).2.2.1
      (by norm_num),
   (risk_overlays_only_shrink (fun _ => 1) 0 (1/10) ⟨1, 0, 0, 1, 0⟩ Inst.fx).2.2.2.2
      (by norm_num)⟩

/-- C3 (counterexample): when the SQP solver fails the fallback
`w_i = 0.5 · mu_i · budget_i` is NOT projected into the regime-blended
bounds: with `mu_fx = 3`, no IC scores (budget 1), a pure-carry regime
(effective fx bound 1.0), zero drawdown and on-target vol, the reported
fx weight after the overlays is `1.5`, outside `[−1, 1]`. -/
theorem optimizer_fallback_violates_bounds :
    effLimits ⟨1, 0, 0, 1, 0⟩ Inst.fx
      < |riskOverlaysApply
          (optimizeFallback (fun i => if i = Inst.fx then 3 else 0) (fun _ => none))
          0 (1/10) ⟨1, 0, 0, 1, 0⟩ Inst.fx| := by
  have habs : |(3:ℚ)/2| = 3/2 := abs_of_pos (by norm_num)
  norm_num [effLimits, carryLimit, riskoffLimit, stressLimit, riskOverlaysApply,
    optimizeFallback, budgetScale, instList, icPos, icTotal, drawdownScale,
    drawdownScaleRaw, volScale, cbFactor, habs]

/-- C3 (amended): on the solver-success path the weights respect the
regime-blended bounds (SLSQP enforces its box bounds) and the risk-overlay
stage preserves them — whenever the optimiser output lies within the
effective `[−U_i, U_i]`, so does the final reported weight, because every
overlay multiplier lies in `(0, 1]`.  On solver failure, however, the
fallback `0.5 · mu_i · budget_i` is returned without projection and can
leave the bounds. -/
theorem overlays_preserve_bounds (w : Inst → ℚ) (dd vol : ℚ)
    (probs : RegimeProbs) (h : ∀ i, |w i| ≤ effLimits probs i) (i : Inst) :
    |riskOverlaysApply w dd vol probs i| ≤ effLimits probs i := by
  obtain ⟨hpos, hle⟩ := overlayMult_bounds dd vol probs i
  rw [riskOverlaysApply_eq_mult, abs_mul, abs_of_pos hpos]
  calc overlayMult dd vol probs i * |w i| ≤ 1 * |w i| :=
      mul_le_mul_of_nonneg_right hle (abs_nonneg _)
    _ = |w i| := one_mul _
    _ ≤ effLimits probs i := h i

/-- C3 (witness for the amended theorem): the zero portfolio is within
bounds and stays within bounds through the overlays. -/
theorem overlays_preserve_bounds_witness :
    |riskOverlaysApply (fun _ => 0) 0 (1/10) ⟨1, 0, 0, 1, 0⟩ Inst.fx|
      ≤ effLimits ⟨1, 0, 0, 1, 0⟩ Inst.fx :=
  overlays_preserve_bounds (fun _ => 0) 0 (1/10) ⟨1, 0, 0, 1, 0⟩
    (by intro i; cases i <;>
      norm_num [effLimits, carryLimit, riskoffLimit, stressLimit]) Inst.fx

/-! ## C2 — score demeaning near zero -/

/-- C2 (counterexample): with raw composite score `S = 0` (`< 0.005` in
magnitude) but a demeaning history of eleven `1.0` scores, the demeaned
score is `−11/6`, whose magnitude is `≥ 0.01`, so the source sets
`scale_factor = 0.0` (line 3029) and the fx `mu` entering regime scaling
becomes `0`, NOT the post-gating value `1/2`: demeaning is not a
pass-through. -/
theorem score_demeaning_zeroes_mu :
    |rawScore cxMu| < 1/200
    ∧ muDemeaned cxMu
        (scaleFactor (rawScore cxMu)
          (demeanScore [1, 1, 1, 1, 1, 1, 1, 1, 1, 1, 1] (rawScore cxMu)))
        Inst.fx
      ≠ ((1:ℚ)/2 : ℝ) := by
  have hz : rawScore cxMu = 0 := by
    norm_num [rawScore, instList, cxMu]
  rw [hz]
  refine ⟨by norm_num, ?_⟩
  have hlist : takeLast 60 ([1, 1, 1, 1, 1, 1, 1, 1, 1, 1, 1] ++ [(0:ℚ)])
      = [1, 1, 1, 1, 1, 1, 1, 1, 1, 1, 1, 0] := by
    simp [takeLast]
  have hmean : listMean [1, 1, 1, 1, 1, 1, 1, 1, 1, 1, 1, (0:ℚ)] = 11/12 := by
    norm_num [listMean, List.sum_cons, List.sum_nil]
  have hvar : listVar [1, 1, 1, 1, 1, 1, 1, 1, 1, 1, 1, (0:ℚ)] = 11/144 := by
    simp only [listVar, hmean, List.map_cons, List.map_nil, List.sum_cons,
      List.sum_nil, List.length_cons, List.length_nil]
    norm_num
  have hsqrt : Real.sqrt (((11:ℚ)/144 : ℚ) : ℝ) ≤ 1/2 := by
    have h1 : (((11:ℚ)/144 : ℚ) : ℝ) ≤ (1/2)^2 := by push_cast; norm_num
    calc Real.sqrt (((11:ℚ)/144 : ℚ) : ℝ) ≤ Real.sqrt ((1/2)^2) := Real.sqrt_le_sqrt h1
      _ = 1/2 := Real.sqrt_sq (by norm_num)
  have hdem : demeanScore [1, 1, 1, 1, 1, 1, 1, 1, 1, 1, 1] 0 = -11/6 := by
    unfold demeanScore
    rw [if_neg (by rw [hlist]; norm_num)]
    rw [hlist, hmean, hvar, max_eq_right hsqrt]
    push_cast
    norm_num
  rw [hdem]
  have hsf : scaleFactor 0 (-11/6) = 0 := by
    unfold scaleFactor
    rw [if_neg (by norm_num), if_neg (by rw [abs_of_nonpos (by norm_num)]; norm_num)]
  rw [hsf]
  unfold muDemeaned cxMu
  norm_num

/-- C2 (amended): when `|S| ≤ 0.005` the demeaning step is a pass-through
only if additionally the demeaned score has magnitude below `0.01` (in
particular when fewer than 12 scores of history exist); when
`|S| ≤ 0.005` and `|demeaned| ≥ 0.01` the scale factor is `0.0` and every
instrument's `mu` entering regime scaling is zeroed. -/
theorem score_demeaning_near_zero (mu : Inst → ℚ) (hist : List ℚ)
    (h : |rawScore mu| ≤ 1/200) :
    (|demeanScore hist (rawScore mu)| < 1/100 →
      ∀ i, muDemeaned mu (scaleFactor (rawScore mu) (demeanScore hist (rawScore mu))) i
        = (mu i : ℝ))
    ∧ (1/100 ≤ |demeanScore hist (rawScore mu)| →
      ∀ i, muDemeaned mu (scaleFactor (rawScore mu) (demeanScore hist (rawScore mu))) i
        = 0) := by
  have hcond : ¬ (1/200 < |rawScore mu|) := not_lt.mpr h
  constructor
  · intro hd i
    unfold muDemeaned scaleFactor
    rw [if_neg hcond, if_pos hd, mul_one]
  · intro hd i
    unfold muDemeaned scaleFactor
    rw [if_neg hcond, if_neg (not_lt.mpr hd), mul_zero]

/-- C2 (witness for the amended theorem): the all-zero prediction with an
empty history passes through unchanged. -/
theorem score_demeaning_near_zero_witness :
    muDemeaned (fun _ => 0)
      (scaleFactor (rawScore (fun _ => 0)) (demeanScore [] (rawScore (fun _ => 0))))
      Inst.fx
    = ((0:ℚ) : ℝ) := by
  have h1 : |rawScore (fun _ => (0:ℚ))| ≤ 1/200 := by norm_num [rawScore, instList]
  have h2 : |demeanScore [] (rawScore (fun _ => (0:ℚ)))| < 1/100 := by
    have hz : rawScore (fun _ => (0:ℚ)) = 0 := by norm_num [rawScore, instList]
    rw [hz]
    have hd : demeanScore [] 0 = ((0:ℚ) : ℝ) := by
      unfold demeanScore
      rw [if_pos (by simp [takeLast])]
    rw [hd]
    norm_num
  exact (score_demeaning_near_zero (fun _ => 0) [] h1).1 h2 Inst.fx

/-! ## C6 / C9 — supporting quantile facts -/

theorem quantileLinear_const {n : ℕ} (hn : 0 < n) (c : ℚ) {q : ℚ}
    (h0 : 0 ≤ q) (h1 : q ≤ 1) :
    quantileLinear (List.replicate n c) q = c := by
  unfold quantileLinear
  have hlen : (List.replicate n c).length = n := List.length_replicate n c
  have hall : ∀ x ∈ List.insertionSort (· ≤ ·) (List.replicate n c), x = c := by
    intro x hx
    have hx2 : x ∈ List.replicate n c := (List.mem_insertionSort _).mp hx
    exact List.eq_of_mem_replicate hx2
  have hslen : (List.insertionSort (· ≤ ·) (List.replicate n c)).length = n := by
    rw [List.length_insertionSort, hlen]
  have hn1 : (0 : ℚ) ≤ (n : ℚ) - 1 := by
    have h1n : (1 : ℚ) ≤ (n : ℚ) := by exact_mod_cast hn
    linarith
  have hpos : 0 ≤ q * (((List.replicate n c).length : ℚ) - 1) := by
    rw [hlen]; exact mul_nonneg h0 hn1
  have hub : q * (((List.replicate n c).length : ℚ) - 1) ≤ (n : ℚ) - 1 := by
    rw [hlen]
    calc q * ((n : ℚ) - 1) ≤ 1 * ((n : ℚ) - 1) := mul_le_mul_of_nonneg_right h1 hn1
      _ = (n : ℚ) - 1 := one_mul _
  have hi : (Int.floor (q * (((List.replicate n c).length : ℚ) - 1))).toNat
      < (List.insertionSort (· ≤ ·) (List.replicate n c)).length := by
    rw [hslen]
    exact natFloor_lt_length hpos hub
  unfold interpAt
  have hlo : (List.insertionSort (· ≤ ·) (List.replicate n c)).getD
      (Int.floor (q * (((List.replicate n c).length : ℚ) - 1))).toNat 0 = c := by
    rw [List.getD_eq_getElem _ 0 hi]
    exact hall _ (List.getElem_mem hi)
  rw [hlo]
  rcases lt_or_le ((Int.floor (q * (((List.replicate n c).length : ℚ) - 1))).toNat + 1)
      (List.insertionSort (· ≤ ·) (List.replicate n c)).length with hlt | hge
  · have hhi : (List.insertionSort (· ≤ ·) (List.replicate n c)).getD
        ((Int.floor (q * (((List.replicate n c).length : ℚ) - 1))).toNat + 1) c = c := by
      rw [List.getD_eq_getElem _ c hlt]
      exact hall _ (List.getElem_mem hlt)
    rw [hhi]
    ring
  · rw [List.getD_eq_default _ _ hge]
    ring

/-! ## C6 — fx returns are stored without winsorisation -/

/-- C6 (counterexample): the stored fx series is `fx_ret.dropna()` with no
winsorisation (`macro_risk_os_v2.py` line 478).  On a concrete 14-month
spot/cupom input the stored series has 13 observations and contains the
monthly return `−1/2`, yet the series' own 5th quantile is `−1/5` — so a
stored value lies strictly below the series' 5th quantile, which cannot
happen for a winsorised series. -/
theorem fx_return_not_winsorised :
    10 ≤ (fxReturns cxSpot cxCupom).length
    ∧ (1, (-1:ℚ)/2) ∈ fxReturns cxSpot cxCupom
    ∧ (-1:ℚ)/2 < quantileLinear ((fxReturns cxSpot cxCupom).map Prod.snd) (1/20) := by
  have hfx : fxReturns cxSpot cxCupom
      = [(1,-1/2),(2,0),(3,0),(4,0),(5,0),(6,0),(7,0),(8,0),(9,0),(10,0),(11,0),(12,0),(13,0)] := by
    norm_num [fxReturns, cxSpot, cxCupom, pctChange, shiftOne, reindexTo, commonIdx,
      zipSubOpt, dropna, lookupQ, List.filterMap_cons, List.filterMap_nil]
  rw [hfx]
  have hmap : ([(1,(-1:ℚ)/2),(2,0),(3,0),(4,0),(5,0),(6,0),(7,0),(8,0),(9,0),(10,0),(11,0),(12,0),(13,0)].map Prod.snd)
      = [-1/2,0,0,0,0,0,0,0,0,0,0,0,0] := by
    norm_num
  rw [hmap]
  refine ⟨by norm_num, by norm_num, ?_⟩
  have hsort : List.insertionSort (· ≤ ·) [(-1:ℚ)/2,0,0,0,0,0,0,0,0,0,0,0,0]
      = [-1/2,0,0,0,0,0,0,0,0,0,0,0,0] := by
    norm_num [List.insertionSort, List.orderedInsert]
  have hfl : Int.floor ((3:ℚ)/5) = 0 := by
    rw [Int.floor_eq_iff]
    constructor <;> norm_num
  have harg : (1/20 : ℚ) * ((([(-1:ℚ)/2,0,0,0,0,0,0,0,0,0,0,0,0] : List ℚ).length : ℚ) - 1)
      = 3/5 := by
    norm_num
  unfold quantileLinear
  rw [harg, hsort]
  unfold interpAt
  rw [hfl, show (0:ℤ).toNat = 0 from rfl]
  simp only [List.getD_cons_succ, List.getD_cons_zero, Nat.zero_add]
  push_cast
  norm_num

/-- C6 (amended): the five series front, belly, long, hard and ntnb are
stored as `winsorize(...)`, and for every input series with at least 10
observations each winsorised value lies between the series' own 5th and
95th quantiles.  The fx series, however, is stored raw (no winsorisation),
and its stored values can lie outside its 5/95 quantiles. -/
theorem winsorize_within_quantiles (s : List ℚ) (h : 10 ≤ s.length) {v : ℚ}
    (hv : v ∈ winsorize s) :
    quantileLinear s (1/20) ≤ v ∧ v ≤ quantileLinear s (19/20) := by
  have hq : quantileLinear s (1/20) ≤ quantileLinear s (19/20) :=
    quantileLinear_mono s (by norm_num) (by norm_num) (by norm_num)
  unfold winsorize at hv
  rw [if_neg (not_lt.mpr h)] at hv
  obtain ⟨x, hx, rfl⟩ := List.mem_map.mp hv
  exact ⟨le_min (le_max_right _ _) hq, min_le_right _ _⟩

/-- C6 (witness for the amended theorem): the all-zero 10-month series. -/
theorem winsorize_within_quantiles_witness :
    quantileLinear (List.replicate 10 (0:ℚ)) (1/20) ≤ 0
    ∧ (0:ℚ) ≤ quantileLinear (List.replicate 10 (0:ℚ)) (19/20) :=
  winsorize_within_quantiles (List.replicate 10 0) (by norm_num)
    (by
      unfold winsorize
      rw [if_neg (by norm_num)]
      refine List.mem_map.mpr ⟨0, List.mem_replicate.mpr ⟨by norm_num, rfl⟩, ?_⟩
      rw [quantileLinear_const (by norm_num) 0 (by norm_num) (by norm_num),
        quantileLinear_const (by norm_num) 0 (by norm_num) (by norm_num)]
      norm_num)

/-! ## C9 — stability thresholds and classification -/

/-- C9 (counterexample): the 0.05 minimum gap between the robust and
moderate thresholds is not actually enforced: with the constant composite
score vector `[0.5, 0.5, 0.5, 0.5]`, `P75 − P40 = 0 < 0.05`, the retry at
P70/P35 returns the same pair `(0.5, 0.5)`, and the returned robust
threshold does not exceed the moderate threshold by 0.05. -/
theorem threshold_gap_not_enforced :
    (adaptiveThresholds (List.replicate 4 (1/2))).1
      - (adaptiveThresholds (List.replicate 4 (1/2))).2 < 1/20 := by
  have h75 : percentileNp (List.replicate 4 (1/2 : ℚ)) 75 = 1/2 := by
    unfold percentileNp
    exact quantileLinear_const (by norm_num) _ (by norm_num) (by norm_num)
  have h40 : percentileNp (List.replicate 4 (1/2 : ℚ)) 40 = 1/2 := by
    unfold percentileNp
    exact quantileLinear_const (by norm_num) _ (by norm_num) (by norm_num)
  have h70 : percentileNp (List.replicate 4 (1/2 : ℚ)) 70 = 1/2 := by
    unfold percentileNp
    exact quantileLinear_const (by norm_num) _ (by norm_num) (by norm_num)
  have h35 : percentileNp (List.replicate 4 (1/2 : ℚ)) 35 = 1/2 := by
    unfold percentileNp
    exact quantileLinear_const (by norm_num) _ (by norm_num) (by norm_num)
  unfold adaptiveThresholds
  rw [h75, h40, if_pos (by norm_num), h70, h35]
  norm_num

theorem classifyScore_spec (score : ℚ) {tR tM : ℚ} (h : tM ≤ tR) :
    (classifyScore score tR tM = StabilityClass.robust ↔ tR ≤ score)
    ∧ (classifyScore score tR tM = StabilityClass.moderate ↔ (tM ≤ score ∧ score < tR))
    ∧ (classifyScore score tR tM = StabilityClass.unstable ↔ score < tM) := by
  unfold classifyScore
  split_ifs with hR hM
  · exact ⟨⟨fun _ => hR, fun _ => rfl⟩,
      ⟨fun hx => by simp at hx, fun hx => absurd hR (not_le.mpr hx.2)⟩,
      ⟨fun hx => by simp at hx, fun hx => absurd (le_trans h hR) (not_le.mpr hx)⟩⟩
  · exact ⟨⟨fun hx => by simp at hx, fun hx => absurd hx hR⟩,
      ⟨fun _ => ⟨hM, not_le.mp hR⟩, fun _ => rfl⟩,
      ⟨fun hx => by simp at hx, fun hx => absurd hM (not_le.mpr hx)⟩⟩
  · exact ⟨⟨fun hx => by simp at hx, fun hx => absurd hx hR⟩,
      ⟨fun hx => by simp at hx, fun hx => absurd hx.1 hM⟩,
      ⟨fun _ => not_le.mp hM, fun _ => rfl⟩⟩

/-- C9 (amended): the returned thresholds always satisfy
`moderate ≤ robust` (percentiles are monotone in the rank), and the
classification is exactly: `robust` iff the composite score is at least
the robust threshold, `moderate` iff it is in `[moderate, robust)`, else
`unstable`.  The 0.05 minimum gap, however, is NOT guaranteed: when
`P75 − P40 < 0.05` the code merely retries with P70/P35, which can still
differ by less than 0.05. -/
theorem stability_thresholds_and_classes (composite : List ℚ) (score : ℚ) :
    (adaptiveThresholds composite).2 ≤ (adaptiveThresholds composite).1
    ∧ (classifyScore score (adaptiveThresholds composite).1 (adaptiveThresholds composite).2
        = StabilityClass.robust ↔ (adaptiveThresholds composite).1 ≤ score)
    ∧ (classifyScore score (adaptiveThresholds composite).1 (adaptiveThresholds composite).2
        = StabilityClass.moderate ↔
        ((adaptiveThresholds composite).2 ≤ score
          ∧ score < (adaptiveThresholds composite).1))
    ∧ (classifyScore score (adaptiveThresholds composite).1 (adaptiveThresholds composite).2
        = StabilityClass.unstable ↔ score < (adaptiveThresholds composite).2) := by
  have hmono : (adaptiveThresholds composite).2 ≤ (adaptiveThresholds composite).1 := by
    unfold adaptiveThresholds
    split_ifs
    · exact quantileLinear_mono composite (by norm_num) (by norm_num) (by norm_num)
    · exact quantileLinear_mono composite (by norm_num) (by norm_num) (by norm_num)
  obtain ⟨h1, h2, h3⟩ := classifyScore_spec score hmono
  exact ⟨hmono, h1, h2, h3⟩

/-- C9 (witness): the classification at a concrete constant composite. -/
theorem stability_thresholds_and_classes_witness :
    (adaptiveThresholds (List.replicate 4 (1/2))).2
      ≤ (adaptiveThresholds (List.replicate 4 (1/2))).1 :=
  (stability_thresholds_and_classes (List.replicate 4 (1/2)) 1).1

/-! ## C1 — walk-forward data consumption -/

theorem pair_mem_locLe {df : List (Nat × α)} {t : Nat} {r : Nat × α}
    (h : r ∈ locLe t df) : r.1 ≤ t := by
  simp only [locLe, List.mem_filter, decide_eq_true_eq] at h
  exact h.2

theorem mem_mapFst_locLe {df : List (Nat × α)} {t d : Nat}
    (h : d ∈ (locLe t df).map Prod.fst) : d ≤ t := by
  obtain ⟨r, hr, rfl⟩ := List.mem_map.mp h
  exact pair_mem_locLe hr

theorem mem_takeLast {l : List α} {n : ℕ} {a : α} (h : a ∈ takeLast n l) : a ∈ l := by
  unfold takeLast at h
  exact List.drop_subset _ _ h

theorem lastRow_fst_le {df : List (Nat × α)} {t d : Nat}
    (h : d ∈ (((locLe t df).getLast?).map Prod.fst).toList) : d ≤ t := by
  rcases hlast : (locLe t df).getLast? with _ | r
  · rw [hlast] at h
    simp at h
  · rw [hlast] at h
    simp at h
    subst h
    exact pair_mem_locLe (getLast?_mem_of_eq hlast)

theorem joinDates_le {ret feat : List (Nat × ℚ)} {t d : Nat}
    (h : d ∈ joinDates ret feat t) : d ≤ t :=
  mem_mapFst_locLe (List.mem_of_mem_filter h)

theorem covDates_le {ret : List (Nat × ℚ)} {t d : Nat}
    (h : d ∈ covDates ret t) : d ≤ t := by
  unfold covDates at h
  split_ifs at h
  · exact mem_mapFst_locLe (mem_takeLast h)
  · simp at h

/-- C1 (amended): every row consumed by the computations that determine a
step's decision outputs — the regime lookup, the periodic hyperparameter
refit, model training, the prediction row, covariance estimation — and
every row consumed by a periodic HMM refit at as-of date `t` has index
`≤ t`; in the harness both are invoked with `t` = the month before the
decision month, so the refit uses only data up to and including the prior
month.  (The equilibrium recompute of step 1b is the exception recorded in
the counterexample.) -/
theorem step_decision_no_lookahead (ret feat : List (Nat × ℚ))
    (probs : List (Nat × RegimeProbs)) (obs : List (Nat × ℚ)) (t d : Nat) :
    (d ∈ stepDecisionDates ret feat probs t → d ≤ t)
    ∧ (d ∈ hmmFitDates obs t → d ≤ t) := by
  constructor
  · intro h
    unfold stepDecisionDates at h
    rcases List.mem_append.mp h with h1234 | h5
    · rcases List.mem_append.mp h1234 with h123 | h4
      · rcases List.mem_append.mp h123 with h12 | h3
        · rcases List.mem_append.mp h12 with h1 | h2
          · exact lastRow_fst_le h1
          · exact joinDates_le (mem_takeLast h2)
        · exact joinDates_le h3
      · exact lastRow_fst_le h4
    · exact covDates_le h5
  · intro h
    exact mem_mapFst_locLe h

/-- C1 (witness for the amended theorem): a concrete step at `t = 3` over
small frames consumes the date 2 and indeed `2 ≤ 3`. -/
theorem step_decision_no_lookahead_witness : (2 : Nat) ≤ 3 :=
  (step_decision_no_lookahead [(0, 1), (2, 1)] [(0, 1), (2, 1)]
      [(1, ⟨1, 0, 0, 1, 0⟩)] [(2, 1)] 3 2).1
    (by
      simp [stepDecisionDates, fitTrainDates, joinDates, hpRefitDates, takeLast,
        locLe, regimeLookupDates, latestFeatureDates, covDates])

/-- C1 (counterexample): the claim is false as stated for the equilibrium
recompute: `update_equilibrium_with_regime` (step 1b, line 2957) passes
the cached full-history model and macro series to
`CompositeEquilibriumRate.compute`, which takes no as-of date — at a step
with as-of date 3 it reads the row dated 5, strictly after the decision
date.  (The values it produces at future dates are not read by this
step's decision, which is the amended statement.) -/
theorem equilibrium_recompute_reads_future :
    5 ∈ stepAllDates [] [] [(0, 4), (1, 4), (2, 4), (3, 4), (4, 4), (5, 4)]
        ([] : List (Nat × RegimeProbs)) 3
    ∧ 3 < 5 := by
  refine ⟨?_, by norm_num⟩
  simp [stepAllDates, stepDecisionDates, regimeLookupDates, hpRefitDates,
    fitTrainDates, joinDates, latestFeatureDates, covDates, locLe, takeLast,
    recomputeDates]

end MacroRiskOS
